import Mathlib

/-!
# smart-htop: the sampling-and-ranking engine of `main.c`

A shallow embedding of the per-process CPU accounting of `main.c`
(`find_prev_total_time`, `update_prev_total_time`, `get_proc_info`,
`compare_cpu_usage`, `get_top_processes` and the cycle of `main`), followed by
theorems about it.

Modelling conventions.

* `unsigned long` is the 64-bit type of LP64 Linux: a `Nat` below `2 ^ 64`, with
  explicit reduction modulo `ULONG_SIZE` where the C arithmetic can wrap.
* `int` values (pids, return codes) are `Int`.
* A C string is the `List Char` of its characters before the terminating NUL.
  The capacities of the character arrays (`buf[1024]`, `name[256]`) are not
  represented.
* `double` arithmetic is carried out in `ℚ`, that is, without IEEE rounding.
  Every `double` the program forms is a finite, non-negative quotient.
* The baseline table `prev_procs[0 .. prev_count)` is the list of its live
  entries; `prev_count` is the length of that list.
* The calls into libc (`strchr`, `strrchr`, `sscanf`, `atoi`, `isdigit`, `qsort`)
  are modelled from their C library contracts, next to the function using them.
-/

namespace SmartHtop

/-! ## Constants and records -/

/-- `#define MAX_PROCS 1024` -/
def MAX_PROCS : Nat := 1024

/-- `#define TOP_N 5` -/
def TOP_N : Nat := 5

/-- Number of values of an `unsigned long` (64 bits). -/
def ULONG_SIZE : Nat := 2 ^ 64

/-- `ULONG_MAX` -/
def ULONG_MAX : Nat := ULONG_SIZE - 1

/-- `typedef struct { int pid; char name[256]; unsigned long utime, stime,
total_time; double cpu_usage; } ProcInfo;` -/
structure ProcInfo where
  pid : Int
  name : List Char
  utime : Nat
  stime : Nat
  total_time : Nat
  cpu_usage : ℚ
  deriving DecidableEq

/-- `typedef struct { int pid; unsigned long total_time; } ProcPrev;` -/
structure ProcPrev where
  pid : Int
  total_time : Nat
  deriving DecidableEq

/-! ## The baseline table -/

/-- `find_prev_total_time`: the `total_time` of the first entry with this pid,
or 0 when the loop over `prev_procs[0 .. prev_count)` finds none. -/
def find_prev_total_time : List ProcPrev → Int → Nat
  | [], _ => 0
  | p :: rest, pid => if p.pid = pid then p.total_time else find_prev_total_time rest pid

/-- The `for` loop of `update_prev_total_time`: overwrite the first entry with
this pid and report that the function returned from inside the loop. -/
def update_existing : List ProcPrev → Int → Nat → Option (List ProcPrev)
  | [], _, _ => none
  | p :: rest, pid, total_time =>
    if p.pid = pid then some ({ p with total_time := total_time } :: rest)
    else (update_existing rest pid total_time).map (fun r => p :: r)

/-- `update_prev_total_time`: overwrite the entry of `pid`; when there is none,
append one if `prev_count < MAX_PROCS`, and otherwise leave the table as it is. -/
def update_prev_total_time (prev_procs : List ProcPrev) (pid : Int) (total_time : Nat) :
    List ProcPrev :=
  match update_existing prev_procs pid total_time with
  | some t => t
  | none =>
    if prev_procs.length < MAX_PROCS then prev_procs ++ [{ pid := pid, total_time := total_time }]
    else prev_procs

/-! ## Reading one `/proc/[pid]/stat` record -/

/-- `strchr(s, c)` as the index of the first occurrence of `c`, `none` for `NULL`. -/
def strchr : List Char → Char → Option Nat
  | [], _ => none
  | x :: rest, c => if x = c then some 0 else (strchr rest c).map (· + 1)

/-- `strrchr(s, c)` as the index of the last occurrence of `c`, `none` for `NULL`. -/
def strrchr : List Char → Char → Option Nat
  | [], _ => none
  | x :: rest, c =>
    match strrchr rest c with
    | some i => some (i + 1)
    | none => if x = c then some 0 else none

/-- `isspace` in the C locale. -/
def isspace (c : Char) : Bool :=
  c = ' ' || c = '\t' || c = '\n' || c = '\x0b' || c = '\x0c' || c = '\r'

/-- `isdigit` -/
def isdigit (c : Char) : Bool := decide ('0' ≤ c) && decide (c ≤ '9')

/-- Value of a string of decimal digits, most significant first. -/
def digits_value (ds : List Char) : Nat :=
  ds.foldl (fun acc c => 10 * acc + (c.toNat - '0'.toNat)) 0

/-- What one numeric conversion of `sscanf` does with the input. -/
inductive Conv where
  /-- A number was matched: its digits' value, whether it carried a `-`, the rest. -/
  | ok (value : Nat) (neg : Bool) (rest : List Char)
  /-- The input does not start with a number: matching failure. -/
  | match_failure
  /-- The input ended before the conversion saw a character: input failure. -/
  | input_failure

/-- A numeric conversion (`%d`, `%u`, `%lu`): skip white space, accept an optional
sign, then a non-empty run of decimal digits. -/
def scan_number (s : List Char) : Conv :=
  match s.dropWhile isspace with
  | [] => Conv.input_failure
  | c :: t =>
    let neg := decide (c = '-')
    let body := if c = '-' ∨ c = '+' then t else c :: t
    let ds := body.takeWhile isdigit
    if ds = [] then Conv.match_failure
    else Conv.ok (digits_value ds) neg (body.dropWhile isdigit)

/-- The `unsigned long` that `%lu` stores: `strtoul` saturates at `ULONG_MAX` and
negates, modulo `2 ^ 64`, a value that carried a minus sign. -/
def strtoul_value (value : Nat) (neg : Bool) : Nat :=
  if value > ULONG_MAX then ULONG_MAX
  else if neg then (ULONG_SIZE - value) % ULONG_SIZE
  else value

/-- The suppressed conversions `%*d` and `%*u`, `n` of them in a row, each
preceded by the white space of the format: the rest of the input, or the
failure that stopped the scan. -/
def skip_numbers : Nat → List Char → Except Bool (List Char)
  | 0, s => Except.ok s
  | n + 1, s =>
    match scan_number s with
    | Conv.ok _ _ rest => skip_numbers n rest
    | Conv.match_failure => Except.error false
    | Conv.input_failure => Except.error true

/-- The macro `EOF`. -/
def EOF : Int := -1

/-- `sscanf(after, "%*c %*d %*d %*d %*d %*u %*u %*u %*u %*u %lu %lu", &utime, &stime)`
on `utime = 0, stime = 0`: the return value and the two variables afterwards.
The return value is the number of assignments made, or `EOF` when the input
ends before the first assignment. -/
def sscanf_stat (after : List Char) : Int × Nat × Nat :=
  match after with
  | [] => (EOF, 0, 0)
  | _ :: s1 =>
    match skip_numbers 9 s1 with
    | Except.error true => (EOF, 0, 0)
    | Except.error false => (0, 0, 0)
    | Except.ok s2 =>
      match scan_number s2 with
      | Conv.input_failure => (EOF, 0, 0)
      | Conv.match_failure => (0, 0, 0)
      | Conv.ok v1 n1 s3 =>
        let utime := strtoul_value v1 n1
        match scan_number s3 with
        | Conv.ok v2 n2 _ => (2, utime, strtoul_value v2 n2)
        | _ => (1, utime, 0)

/-- What `fopen` and `fgets` leave in `buf` for one `/proc/[pid]/stat`: `line` is
the C string read, `slack` the characters that follow its terminating NUL in
the array (they are read only when the record ends with its last `)`). -/
structure StatRead where
  line : List Char
  slack : List Char
  deriving DecidableEq

/-- The C string at `start + 1` once `*end = '\0'` is done, which is what
`strcpy(pinfo->name, start + 1)` copies: it stops at the NUL written over the last
`)` when that lies after `start`, and at the end of the line otherwise. -/
def name_text (line : List Char) (start e : Nat) : List Char :=
  if start < e then (line.take e).drop (start + 1) else line.drop (start + 1)

/-- The C string at `after = end + 2`: the line from two characters after its
last `)`, or the slack when that `)` is the last character of the line. -/
def after_text (r : StatRead) (e : Nat) : List Char :=
  if e + 1 < r.line.length then r.line.drop (e + 2) else r.slack

/-- `get_proc_info(pinfo, pid)`: the return value and `*pinfo` afterwards.
`rd` is `none` when `fopen` or `fgets` fails. -/
def get_proc_info (rd : Option StatRead) (pid : Int) (pinfo : ProcInfo) : Int × ProcInfo :=
  match rd with
  | none => (0, pinfo)
  | some r =>
    -- `char *start = strchr(buf, '('); char *end = strrchr(buf, ')');`
    match strchr r.line '(', strrchr r.line ')' with
    | some start, some e =>
      -- `*end = '\0'; strcpy(pinfo->name, start + 1);`
      let pinfo1 := { pinfo with name := name_text r.line start e }
      match sscanf_stat (after_text r e) with
      | (scanned, utime, stime) =>
        if scanned ≠ 2 then (0, pinfo1)
        else (1, { pinfo1 with
                    pid := pid, utime := utime, stime := stime,
                    total_time := (utime + stime) % ULONG_SIZE })
    -- `if (!start || !end) return 0;`
    | _, _ => (0, pinfo)

/-- A stand-in for the indeterminate contents of the local `ProcInfo pinfo` before
`get_proc_info` fills it; what the loop stores does not depend on it
(`stored_record_independent`). -/
def ProcInfo.uninit : ProcInfo :=
  { pid := 0, name := [], utime := 0, stime := 0, total_time := 0, cpu_usage := 0 }

/-! ## One tick: scan, rank, display -/

/-- The local `diff_time` of `get_top_processes` for a process whose counter
is `total_time`: 0, replaced by `total_time - prev_time` when
`total_time > prev_time`. -/
def compute_diff_time (prev_procs : List ProcPrev) (pid : Int) (total_time : Nat) : Nat :=
  let prev_time := find_prev_total_time prev_procs pid
  if total_time > prev_time then total_time - prev_time else 0

/-- The `double` stored in `cpu_usage`: `(diff_time * 100.0) / total_cpu_diff`
when `total_cpu_diff > 0`, and 0 otherwise. -/
def compute_cpu_usage (prev_procs : List ProcPrev) (total_cpu_diff : Nat) (pid : Int)
    (total_time : Nat) : ℚ :=
  let diff_time := compute_diff_time prev_procs pid total_time
  if total_cpu_diff > 0 then ((diff_time : ℚ) * 100) / (total_cpu_diff : ℚ) else 0

/-- `compare_cpu_usage`: positive when the second record has the larger
`cpu_usage`, negative when it has the smaller one, 0 when they are equal. -/
def compare_cpu_usage (p1 p2 : ProcInfo) : Int :=
  if p2.cpu_usage > p1.cpu_usage then 1
  else if p2.cpu_usage < p1.cpu_usage then -1
  else 0

/-- Insertion of one element in front of the first element it does not compare
greater than. -/
def qsort_insert {α : Type} (compar : α → α → Int) (x : α) : List α → List α
  | [] => [x]
  | y :: ys => if compar x y ≤ 0 then x :: y :: ys else y :: qsort_insert compar x ys

/-- `qsort(base, nmemb, size, compar)` on the list of the `nmemb` elements. The C
library promises a rearrangement in ascending order of `compar` and leaves the
order of elements that compare equal open; this one is an insertion sort. The
theorems below use only what every `qsort` promises. -/
def qsort {α : Type} (compar : α → α → Int) : List α → List α
  | [] => []
  | x :: xs => qsort_insert compar x (qsort compar xs)

/-- Conversion of an integer value to the 32-bit `int`. -/
def to_int (v : Nat) : Int :=
  if v % 2 ^ 32 < 2 ^ 31 then ((v % 2 ^ 32 : Nat) : Int) else ((v % 2 ^ 32 : Nat) : Int) - 2 ^ 32

/-- `atoi(d_name)` for a name that starts with a digit: `(int) strtol(d_name, NULL, 10)`,
the value of the leading digits, saturated at `LONG_MAX`. -/
def atoi (s : List Char) : Int :=
  to_int (min (digits_value (s.takeWhile isdigit)) (2 ^ 63 - 1))

/-- One entry returned by `readdir`, with what reading the `stat` file of the
pid it names yields (`none`: `fopen` or `fgets` failed). -/
structure DirEntry where
  d_name : List Char
  stat : Option StatRead
  deriving DecidableEq

/-- `isdigit(entry->d_name[0])`; the first character of an empty name is the NUL. -/
def names_pid (e : DirEntry) : Bool :=
  match e.d_name with
  | [] => false
  | c :: _ => isdigit c

/-- The `while ((entry = readdir(proc)))` loop of `get_top_processes`, from the
table `prev_procs` and the filled part `proc_list` of the local array: the table
and the array when the loop ends, by exhaustion of the directory or by the
`break` at `proc_count >= MAX_PROCS`. -/
def scan_loop (total_cpu_diff : Nat) :
    List DirEntry → List ProcPrev → List ProcInfo → List ProcPrev × List ProcInfo
  | [], prev_procs, proc_list => (prev_procs, proc_list)
  | entry :: rest, prev_procs, proc_list =>
    if !names_pid entry then scan_loop total_cpu_diff rest prev_procs proc_list
    else
      let pid := atoi entry.d_name
      match get_proc_info entry.stat pid ProcInfo.uninit with
      | (ret, pinfo) =>
        if ret ≠ 0 then
          let pinfo := { pinfo with
            cpu_usage := compute_cpu_usage prev_procs total_cpu_diff pid pinfo.total_time }
          let proc_list := proc_list ++ [pinfo]
          let prev_procs := update_prev_total_time prev_procs pid pinfo.total_time
          if proc_list.length ≥ MAX_PROCS then (prev_procs, proc_list)
          else scan_loop total_cpu_diff rest prev_procs proc_list
        else scan_loop total_cpu_diff rest prev_procs proc_list

/-- What a call of `get_top_processes` leaves behind. -/
structure TopProcesses where
  /-- The baseline table after the call. -/
  prev_procs : List ProcPrev
  /-- The array `proc_list[0 .. proc_count)` as scanned, before `qsort`. -/
  scanned : List ProcInfo
  /-- The rows printed by the display loop, in order (pid, cpu_usage, name of each). -/
  rows : List ProcInfo

/-- `get_top_processes(win, total_cpu_diff)`; `proc` is the listing of `/proc`,
`none` when `opendir` fails. -/
def get_top_processes (proc : Option (List DirEntry)) (total_cpu_diff : Nat)
    (prev_procs : List ProcPrev) : TopProcesses :=
  match proc with
  | none => { prev_procs := prev_procs, scanned := [], rows := [] }
  | some entries =>
    match scan_loop total_cpu_diff entries prev_procs [] with
    | (prev_procs1, proc_list) =>
      { prev_procs := prev_procs1,
        scanned := proc_list,
        -- `for (int i = 0; i < proc_count && i < TOP_N; i++)`
        rows := (qsort compare_cpu_usage proc_list).take TOP_N }

/-! ## The cycle of `main` -/

/-- The variables that live across cycles: the globals `prev_procs` with
`prev_count`, `refresh_delay`, `paused`, and the local `prev_total_cpu`. -/
structure MainState where
  prev_procs : List ProcPrev
  refresh_delay : Int
  paused : Bool
  prev_total_cpu : Nat

/-- What one cycle reads from outside: the value `get_total_cpu_time()` returns,
the listing of `/proc`, and the value `getch()` returns. -/
structure CycleInput where
  current_total_cpu : Nat
  proc : Option (List DirEntry)
  ch : Int

/-- What one cycle produces. -/
structure CycleResult where
  state : MainState
  /-- The call of `get_top_processes`, `none` when "Paused" is printed instead. -/
  top : Option TopProcesses
  /-- Whether the cycle left the loop through `break`. -/
  quit : Bool

/-- The curses value `ERR`. -/
def ERR : Int := -1

/-- Subtraction of two `unsigned long` values. -/
def ulong_sub (a b : Nat) : Nat := (a % ULONG_SIZE + ULONG_SIZE - b % ULONG_SIZE) % ULONG_SIZE

/-- The code of a character constant such as `'q'`. -/
def key (c : Char) : Int := (c.toNat : Int)

/-- One iteration of the `while (1)` loop of `main`. -/
def cycle (s : MainState) (i : CycleInput) : CycleResult :=
  let total_cpu_diff := ulong_sub i.current_total_cpu s.prev_total_cpu
  let top : Option TopProcesses :=
    if !s.paused then some (get_top_processes i.proc total_cpu_diff s.prev_procs) else none
  let prev_procs := match top with
    | some t => t.prev_procs
    | none => s.prev_procs
  let s1 : MainState := { s with prev_total_cpu := i.current_total_cpu, prev_procs := prev_procs }
  if i.ch ≠ ERR then
    if i.ch = key 'q' then { state := s1, top := top, quit := true }
    else if i.ch = key 'p' then { state := { s1 with paused := !s1.paused }, top := top, quit := false }
    else if i.ch = key '+' then
      { state := if s1.refresh_delay > 1 then { s1 with refresh_delay := s1.refresh_delay - 1 } else s1,
        top := top, quit := false }
    else if i.ch = key '-' then
      { state := if s1.refresh_delay < 10 then { s1 with refresh_delay := s1.refresh_delay + 1 } else s1,
        top := top, quit := false }
    else { state := s1, top := top, quit := false }
  else { state := s1, top := top, quit := false }

/-- The loop of `main` over the inputs of successive cycles, until a `break`. -/
def run : MainState → List CycleInput → MainState
  | s, [] => s
  | s, i :: rest => if (cycle s i).quit then (cycle s i).state else run (cycle s i).state rest

/-! ## Definitions used to state the theorems -/

/-- Whether the table has an entry for `pid`. -/
def has_entry (prev_procs : List ProcPrev) (pid : Int) : Bool :=
  prev_procs.any (fun p => decide (p.pid = pid))

/-- Whether the scan stores a record for this entry: its name starts with a
digit and `get_proc_info` returns non-zero for it. -/
def eligible (e : DirEntry) : Bool :=
  names_pid e && decide ((get_proc_info e.stat (atoi e.d_name) ProcInfo.uninit).1 ≠ 0)

/-- The record the loop body stores for an eligible entry, given the table at
that moment. -/
def sample (d : Nat) (t : List ProcPrev) (e : DirEntry) : ProcInfo :=
  { (get_proc_info e.stat (atoi e.d_name) ProcInfo.uninit).2 with
    cpu_usage := compute_cpu_usage t d (atoi e.d_name)
      (get_proc_info e.stat (atoi e.d_name) ProcInfo.uninit).2.total_time }

/-- The pids the scan looks at, in directory order. -/
def scanned_pids (es : List DirEntry) : List Int :=
  (es.filter names_pid).map (fun e => atoi e.d_name)

/-- The entries of a listing for which the scan stores a record. -/
def eligible_entries : Option (List DirEntry) → List DirEntry
  | none => []
  | some es => es.filter eligible

/-- Whether every cycle the loop runs on these inputs starts with `paused` set. -/
def all_paused : MainState → List CycleInput → Bool
  | _, [] => true
  | s, i :: rest => s.paused && ((cycle s i).quit || all_paused (cycle s i).state rest)

/-- The text of the numeric fields: each token preceded by one space. -/
def fields_text (toks : List (List Char)) : List Char :=
  toks.foldr (fun tok acc => ' ' :: (tok ++ acc)) []

/-- A non-empty string of decimal digits. -/
def is_digits (ds : List Char) : Bool := !ds.isEmpty && ds.all isdigit

/-- A decimal number with an optional minus sign. -/
def is_number (tok : List Char) : Bool :=
  match tok with
  | '-' :: ds => is_digits ds
  | _ => is_digits tok

/-- The text is empty or starts with a character that is not a digit. -/
def no_digit_ahead (s : List Char) : Bool :=
  match s with
  | [] => true
  | c :: _ => !isdigit c

/-- A `stat` record: `pre` holds the pid and the space after it, `st` is the
state (field 3), `toks` are the fields 4 to 12, `f13` and `f14` the fields 13
and 14, and `tail` the rest of the line, from the space before field 15. -/
def stat_record (pre name : List Char) (st : Char) (toks : List (List Char))
    (f13 f14 tail : List Char) : List Char :=
  pre ++ '(' :: (name ++ ')' :: ' ' :: st ::
    (fields_text toks ++ ' ' :: (f13 ++ ' ' :: (f14 ++ tail))))

/-! ## Concrete records and ticks -/

/-- A line read into `buf`, with a NUL in the byte after its terminator. -/
def read_line (line : String) : StatRead := { line := line.toList, slack := [] }

/-- A directory entry with the line read from its `stat` file. -/
def proc_entry (d_name line : String) : DirEntry :=
  { d_name := d_name.toList, stat := some (read_line line) }

/-- A record of pid 42: field 13 (`cmajflt`) is 3, field 14 (`utime`) is 200,
field 15 (`stime`) is 11. -/
def stat_42 : String :=
  "42 (cat) S 1 42 42 0 -1 4194304 100 0 7 3 200 11 0 0 20 0 1 0 100 0 0\n"

/-- Pid 42 with `cmajflt = 0`, `utime = 211`, `stime = 0`. -/
def entry_42 : DirEntry :=
  proc_entry "42" "42 (cat) S 1 42 42 0 -1 4194304 100 0 7 0 211 0 0 0 20 0 1 0 100 0 0\n"

/-- Six processes, pids 1 to 6, with counters 10, 60, 30, 50, 20, 40. -/
def six_entries : List DirEntry :=
  [ proc_entry "1" "1 (a) S 0 1 1 0 -1 0 0 0 0 0 10 0 0 0 20 0 1 0 5 0 0\n",
    proc_entry "2" "2 (b) S 0 1 1 0 -1 0 0 0 0 0 60 0 0 0 20 0 1 0 5 0 0\n",
    proc_entry "3" "3 (c) S 0 1 1 0 -1 0 0 0 0 0 30 0 0 0 20 0 1 0 5 0 0\n",
    proc_entry "4" "4 (d) S 0 1 1 0 -1 0 0 0 0 0 50 0 0 0 20 0 1 0 5 0 0\n",
    proc_entry "5" "5 (e) S 0 1 1 0 -1 0 0 0 0 0 20 0 0 0 20 0 1 0 5 0 0\n",
    proc_entry "6" "6 (f) S 0 1 1 0 -1 0 0 0 0 0 40 0 0 0 20 0 1 0 5 0 0\n" ]

/-- A table with `MAX_PROCS` entries, for the pids 1 to 1024. -/
def full_table : List ProcPrev :=
  (List.range MAX_PROCS).map (fun (i : Nat) => { pid := (i : Int) + 1, total_time := 1 })

/-- A running monitor whose last reading of the system counter was 950 and whose
baseline for pid 42 is 200. -/
def state_950 : MainState :=
  { prev_procs := [{ pid := 42, total_time := 200 }], refresh_delay := 1, paused := false,
    prev_total_cpu := 950 }

/-- The same monitor, paused. -/
def state_paused : MainState := { state_950 with paused := true }

/-- A cycle input: the system counter reading, pid 42 alone in `/proc`, a key. -/
def tick_input (current_total_cpu : Nat) (ch : Int) : CycleInput :=
  { current_total_cpu := current_total_cpu, proc := some [entry_42], ch := ch }

/-! ## The baseline table: lookup after update -/

theorem find_prev_of_no_entry (t : List ProcPrev) (pid : Int) (h : has_entry t pid = false) :
    find_prev_total_time t pid = 0 := by
  induction t with
  | nil => rfl
  | cons p rest ih =>
    simp only [has_entry, List.any_cons, Bool.or_eq_false_iff, decide_eq_false_iff_not] at h
    simp only [find_prev_total_time, if_neg h.1]
    exact ih h.2

theorem update_existing_none (t : List ProcPrev) (pid : Int) (v : Nat)
    (h : has_entry t pid = false) : update_existing t pid v = none := by
  induction t with
  | nil => rfl
  | cons p rest ih =>
    simp only [has_entry, List.any_cons, Bool.or_eq_false_iff, decide_eq_false_iff_not] at h
    simp only [update_existing, if_neg h.1, ih h.2, Option.map_none']

theorem update_existing_some (t : List ProcPrev) (pid : Int) (v : Nat)
    (h : has_entry t pid = true) :
    ∃ t1, update_existing t pid v = some t1 ∧ find_prev_total_time t1 pid = v ∧
      t1.length = t.length := by
  induction t with
  | nil => simp [has_entry] at h
  | cons p rest ih =>
    by_cases hp : p.pid = pid
    · exact ⟨{ p with total_time := v } :: rest, by simp only [update_existing, if_pos hp],
        by simp [find_prev_total_time, hp], rfl⟩
    · have hrest : has_entry rest pid = true := by
        simpa [has_entry, hp] using h
      obtain ⟨t1, h1, h2, h3⟩ := ih hrest
      refine ⟨p :: t1, by simp only [update_existing, if_neg hp, h1, Option.map_some'], ?_, ?_⟩
      · simp only [find_prev_total_time, if_neg hp, h2]
      · simp [h3]

theorem find_prev_append_new (t : List ProcPrev) (pid : Int) (v : Nat)
    (h : has_entry t pid = false) :
    find_prev_total_time (t ++ [{ pid := pid, total_time := v }]) pid = v := by
  induction t with
  | nil => simp [find_prev_total_time]
  | cons p rest ih =>
    simp only [has_entry, List.any_cons, Bool.or_eq_false_iff, decide_eq_false_iff_not] at h
    simp only [List.cons_append, find_prev_total_time, if_neg h.1]
    exact ih h.2

/-- Lookup of `pid` right after `update_prev_total_time pid v`, in every case. -/
theorem find_prev_update_same (t : List ProcPrev) (pid : Int) (v : Nat) :
    find_prev_total_time (update_prev_total_time t pid v) pid =
      if has_entry t pid = true ∨ t.length < MAX_PROCS then v else 0 := by
  cases h : has_entry t pid with
  | true =>
    obtain ⟨t1, h1, h2, _⟩ := update_existing_some t pid v h
    simp [update_prev_total_time, h1, h2]
  | false =>
    simp only [update_prev_total_time, update_existing_none t pid v h]
    by_cases hlen : t.length < MAX_PROCS
    · simp [hlen, find_prev_append_new t pid v h]
    · simp [hlen, find_prev_of_no_entry t pid h]

/-- A full table without `pid` is left as it is. -/
theorem update_full_table (t : List ProcPrev) (pid : Int) (v : Nat)
    (h : has_entry t pid = false) (hlen : ¬ t.length < MAX_PROCS) :
    update_prev_total_time t pid v = t := by
  simp [update_prev_total_time, update_existing_none t pid v h, hlen]

/-- An update for one pid does not change what is found for another. -/
theorem find_prev_update_other (t : List ProcPrev) (pid q : Int) (v : Nat) (hq : q ≠ pid) :
    find_prev_total_time (update_prev_total_time t pid v) q = find_prev_total_time t q := by
  have hex : ∀ (t t1 : List ProcPrev), update_existing t pid v = some t1 →
      find_prev_total_time t1 q = find_prev_total_time t q := by
    intro t
    induction t with
    | nil => intro t1 h; simp [update_existing] at h
    | cons p rest ih =>
      intro t1 h
      by_cases hp : p.pid = pid
      · simp only [update_existing, if_pos hp, Option.some.injEq] at h
        subst h
        have : ¬ p.pid = q := fun e => hq (e.symm.trans hp)
        simp [find_prev_total_time, this]
      · simp only [update_existing, if_neg hp] at h
        cases hr : update_existing rest pid v with
        | none => simp [hr] at h
        | some r =>
          simp only [hr, Option.map_some', Option.some.injEq] at h
          subst h
          simp only [find_prev_total_time, ih r hr]
  have happ : ∀ (t : List ProcPrev),
      find_prev_total_time (t ++ [{ pid := pid, total_time := v }]) q =
        find_prev_total_time t q := by
    intro t
    induction t with
    | nil => simp [find_prev_total_time, Ne.symm hq]
    | cons p rest ih =>
      rw [List.cons_append]
      simp only [find_prev_total_time, ih]
  unfold update_prev_total_time
  cases hu : update_existing t pid v with
  | some t1 => exact hex t t1 hu
  | none =>
    by_cases hlen : t.length < MAX_PROCS
    · simp only [hlen, if_true]; exact happ t
    · simp only [hlen, if_false]

/-- The table never grows past `MAX_PROCS`. -/
theorem update_length_le (t : List ProcPrev) (pid : Int) (v : Nat)
    (h : t.length ≤ MAX_PROCS) : (update_prev_total_time t pid v).length ≤ MAX_PROCS := by
  unfold update_prev_total_time
  cases hu : update_existing t pid v with
  | some t1 =>
    cases he : has_entry t pid with
    | true =>
      obtain ⟨t2, h1, _, h3⟩ := update_existing_some t pid v he
      rw [hu] at h1
      cases h1
      simpa [h3] using h
    | false => rw [update_existing_none t pid v he] at hu; cases hu
  | none =>
    by_cases hlen : t.length < MAX_PROCS
    · simp only [hlen, if_true, List.length_append, List.length_singleton]; omega
    · simpa [hlen] using h

theorem has_entry_eq_false_iff (t : List ProcPrev) (pid : Int) :
    has_entry t pid = false ↔ ∀ p ∈ t, p.pid ≠ pid := by
  simp [has_entry]

/-! ## The per-process delta and percentage -/

theorem compute_cpu_usage_zero_diff (t : List ProcPrev) (pid : Int) (cur : Nat) :
    compute_cpu_usage t 0 pid cur = 0 := by
  simp [compute_cpu_usage]

/-! ## The scan loop -/

theorem scan_loop_cons_skip (d : Nat) (e : DirEntry) (rest : List DirEntry)
    (t : List ProcPrev) (acc : List ProcInfo) (h : eligible e = false) :
    scan_loop d (e :: rest) t acc = scan_loop d rest t acc := by
  unfold eligible at h
  cases hn : names_pid e with
  | false => simp [scan_loop, hn]
  | true =>
    simp only [hn, Bool.true_and, decide_eq_false_iff_not, not_not] at h
    simp [scan_loop, hn, h]

theorem scan_loop_cons_store (d : Nat) (e : DirEntry) (rest : List DirEntry)
    (t : List ProcPrev) (acc : List ProcInfo) (h : eligible e = true) :
    scan_loop d (e :: rest) t acc =
      if (acc ++ [sample d t e]).length ≥ MAX_PROCS then
        (update_prev_total_time t (atoi e.d_name) (sample d t e).total_time, acc ++ [sample d t e])
      else
        scan_loop d rest (update_prev_total_time t (atoi e.d_name) (sample d t e).total_time)
          (acc ++ [sample d t e]) := by
  unfold eligible at h
  simp only [Bool.and_eq_true, decide_eq_true_eq] at h
  obtain ⟨hn, hr⟩ := h
  simp only [scan_loop, hn, Bool.not_true, Bool.false_eq_true, if_false, hr, ne_eq,
    not_false_eq_true, if_true, sample]

theorem get_proc_info_found (r : StatRead) (pid : Int) (pinfo : ProcInfo) (start e : Nat)
    (h1 : strchr r.line '(' = some start) (h2 : strrchr r.line ')' = some e) :
    get_proc_info (some r) pid pinfo =
      if (sscanf_stat (after_text r e)).1 ≠ 2 then
        (0, { pinfo with name := name_text r.line start e })
      else
        (1, { pinfo with
              name := name_text r.line start e,
              pid := pid,
              utime := (sscanf_stat (after_text r e)).2.1,
              stime := (sscanf_stat (after_text r e)).2.2,
              total_time := ((sscanf_stat (after_text r e)).2.1 +
                (sscanf_stat (after_text r e)).2.2) % ULONG_SIZE }) := by
  simp only [get_proc_info, h1, h2]

theorem get_proc_info_not_found (r : StatRead) (pid : Int) (pinfo : ProcInfo)
    (h : strchr r.line '(' = none ∨ strrchr r.line ')' = none) :
    get_proc_info (some r) pid pinfo = (0, pinfo) := by
  unfold get_proc_info
  rcases h with h | h
  · simp only [h]
  · simp only [h]
    cases strchr r.line '(' <;> rfl

/-- The return value of `get_proc_info` does not depend on what `*pinfo` held,
and on success neither does the record once `cpu_usage` is assigned. -/
theorem stored_record_independent (rd : Option StatRead) (pid : Int) (p1 p2 : ProcInfo) (c : ℚ) :
    (get_proc_info rd pid p1).1 = (get_proc_info rd pid p2).1 ∧
    ((get_proc_info rd pid p1).1 ≠ 0 →
      { (get_proc_info rd pid p1).2 with cpu_usage := c } =
        { (get_proc_info rd pid p2).2 with cpu_usage := c }) := by
  cases rd with
  | none => simp [get_proc_info]
  | some r =>
    cases h1 : strchr r.line '(' with
    | none => simp [get_proc_info_not_found r pid _ (Or.inl h1)]
    | some start =>
      cases h2 : strrchr r.line ')' with
      | none => simp [get_proc_info_not_found r pid _ (Or.inr h2)]
      | some e =>
        rw [get_proc_info_found r pid p1 start e h1 h2, get_proc_info_found r pid p2 start e h1 h2]
        by_cases hs : (sscanf_stat (after_text r e)).1 ≠ 2
        · simp [hs]
        · simp [hs]

/-- The number of records the loop stores: one per eligible entry, up to the
`break` at `MAX_PROCS`. -/
theorem scan_loop_length (d : Nat) (es : List DirEntry) :
    ∀ (t : List ProcPrev) (acc : List ProcInfo), acc.length < MAX_PROCS →
      (scan_loop d es t acc).2.length = min MAX_PROCS (acc.length + (es.filter eligible).length) := by
  induction es with
  | nil =>
    intro t acc h
    simp only [scan_loop, List.filter_nil, List.length_nil, Nat.add_zero]
    omega
  | cons e rest ih =>
    intro t acc h
    cases he : eligible e with
    | false =>
      rw [scan_loop_cons_skip d e rest t acc he, ih t acc h]
      simp [List.filter_cons, he]
    | true =>
      rw [scan_loop_cons_store d e rest t acc he]
      have hf : ((e :: rest).filter eligible).length = (rest.filter eligible).length + 1 := by
        simp [List.filter_cons, he]
      by_cases hfull : (acc ++ [sample d t e]).length ≥ MAX_PROCS
      · simp only [hfull, if_true, hf]
        simp only [List.length_append, List.length_singleton] at hfull ⊢
        omega
      · simp only [hfull, if_false, hf]
        rw [ih _ _ (by omega)]
        simp only [List.length_append, List.length_singleton]
        omega

/-- With distinct pids and fewer than `MAX_PROCS` eligible entries, the array the
loop fills holds one record per eligible entry, in directory order, each computed
against the table the tick started with. -/
theorem scan_loop_eq_map (d : Nat) (es : List DirEntry) :
    ∀ (t t0 : List ProcPrev) (acc : List ProcInfo), (scanned_pids es).Nodup →
      (∀ q ∈ scanned_pids es, find_prev_total_time t q = find_prev_total_time t0 q) →
      acc.length + (es.filter eligible).length < MAX_PROCS →
      (scan_loop d es t acc).2 = acc ++ (es.filter eligible).map (sample d t0) := by
  induction es with
  | nil => intro t t0 acc _ _ _; simp [scan_loop]
  | cons e rest ih =>
    intro t t0 acc hnd hfind hlen
    cases he : eligible e with
    | false =>
      rw [scan_loop_cons_skip d e rest t acc he]
      have hsub : ∀ q ∈ scanned_pids rest, q ∈ scanned_pids (e :: rest) := by
        intro q hq
        unfold scanned_pids at hq ⊢
        by_cases hn : names_pid e = true
        · simp only [List.filter_cons, hn, if_true, List.map_cons, List.mem_cons]
          exact Or.inr hq
        · simpa [List.filter_cons, hn] using hq
      have hnd1 : (scanned_pids rest).Nodup := by
        unfold scanned_pids at hnd ⊢
        by_cases hn : names_pid e = true
        · simp only [List.filter_cons, hn, if_true, List.map_cons, List.nodup_cons] at hnd
          exact hnd.2
        · simpa [List.filter_cons, hn] using hnd
      have hlen1 : acc.length + (rest.filter eligible).length < MAX_PROCS := by
        simpa [List.filter_cons, he] using hlen
      rw [ih t t0 acc hnd1 (fun q hq => hfind q (hsub q hq)) hlen1]
      simp [List.filter_cons, he]
    | true =>
      have hn : names_pid e = true := by
        unfold eligible at he
        simp only [Bool.and_eq_true] at he
        exact he.1
      have hpids : scanned_pids (e :: rest) = atoi e.d_name :: scanned_pids rest := by
        simp [scanned_pids, List.filter_cons, hn]
      rw [hpids, List.nodup_cons] at hnd
      have hf : ((e :: rest).filter eligible) = e :: rest.filter eligible := by
        simp [List.filter_cons, he]
      rw [hf] at hlen ⊢
      simp only [List.length_cons] at hlen
      have hsame : sample d t e = sample d t0 e := by
        unfold sample compute_cpu_usage compute_diff_time
        rw [hfind (atoi e.d_name) (by rw [hpids]; exact List.mem_cons_self _ _)]
      rw [scan_loop_cons_store d e rest t acc he]
      have hfull : ¬ (acc ++ [sample d t e]).length ≥ MAX_PROCS := by
        simp only [List.length_append, List.length_singleton]; omega
      simp only [hfull, if_false]
      rw [ih _ t0 _ hnd.2 ?_ ?_]
      · simp [hsame]
      · intro q hq
        have hne : q ≠ atoi e.d_name := fun hc => hnd.1 (hc ▸ hq)
        rw [find_prev_update_other _ _ _ _ hne]
        exact hfind q (by rw [hpids]; exact List.mem_cons_of_mem _ hq)
      · simp only [List.length_append, List.length_singleton]; omega

/-! ## Sorting and the displayed rows -/

theorem compare_cpu_usage_le_zero_iff (a b : ProcInfo) :
    compare_cpu_usage a b ≤ 0 ↔ b.cpu_usage ≤ a.cpu_usage := by
  unfold compare_cpu_usage
  by_cases h1 : b.cpu_usage > a.cpu_usage
  · simp only [h1, if_true]
    constructor
    · intro h; omega
    · intro h; exact absurd h (not_le.mpr h1)
  · simp only [h1, if_false]
    by_cases h2 : b.cpu_usage < a.cpu_usage
    · simp only [h2, if_true]
      exact ⟨fun _ => le_of_lt h2, fun _ => by omega⟩
    · simp only [h2, if_false]
      exact ⟨fun _ => not_lt.mp h1, fun _ => le_refl _⟩

theorem qsort_insert_perm {α : Type} (c : α → α → Int) (x : α) (l : List α) :
    (qsort_insert c x l).Perm (x :: l) := by
  induction l with
  | nil => exact List.Perm.refl _
  | cons y ys ih =>
    unfold qsort_insert
    by_cases h : c x y ≤ 0
    · simp only [h, if_true]; exact List.Perm.refl _
    · simp only [h, if_false]
      exact (List.Perm.cons y ih).trans (List.Perm.swap x y ys)

/-- What `qsort` returns is a rearrangement of the array. -/
theorem qsort_perm {α : Type} (c : α → α → Int) (l : List α) : (qsort c l).Perm l := by
  induction l with
  | nil => exact List.Perm.refl _
  | cons x xs ih =>
    unfold qsort
    exact (qsort_insert_perm c x _).trans (List.Perm.cons x ih)

theorem qsort_insert_pairwise {α : Type} (c : α → α → Int)
    (htotal : ∀ a b, c a b ≤ 0 ∨ c b a ≤ 0)
    (htrans : ∀ a b e, c a b ≤ 0 → c b e ≤ 0 → c a e ≤ 0) (x : α) (l : List α)
    (hl : l.Pairwise (fun a b => c a b ≤ 0)) :
    (qsort_insert c x l).Pairwise (fun a b => c a b ≤ 0) := by
  induction l with
  | nil => simp [qsort_insert]
  | cons y ys ih =>
    rw [List.pairwise_cons] at hl
    unfold qsort_insert
    by_cases h : c x y ≤ 0
    · simp only [h, if_true]
      refine List.Pairwise.cons ?_ (List.Pairwise.cons hl.1 hl.2)
      intro b hb
      rcases List.mem_cons.mp hb with rfl | hb
      · exact h
      · exact htrans x y b h (hl.1 b hb)
    · simp only [h, if_false]
      refine List.Pairwise.cons ?_ (ih hl.2)
      intro b hb
      rcases List.mem_cons.mp ((qsort_insert_perm c x ys).subset hb) with rfl | hb
      · exact (htotal y b).resolve_right h
      · exact hl.1 b hb

/-- What `qsort` returns is in ascending order of a comparison that is total
and transitive. -/
theorem qsort_pairwise {α : Type} (c : α → α → Int)
    (htotal : ∀ a b, c a b ≤ 0 ∨ c b a ≤ 0)
    (htrans : ∀ a b e, c a b ≤ 0 → c b e ≤ 0 → c a e ≤ 0) (l : List α) :
    (qsort c l).Pairwise (fun a b => c a b ≤ 0) := by
  induction l with
  | nil => simp [qsort]
  | cons x xs ih =>
    unfold qsort
    exact qsort_insert_pairwise c htotal htrans x _ ih

/-- The array after `qsort` with `compare_cpu_usage` is non-increasing in
`cpu_usage`. -/
theorem qsort_cpu_usage_sorted (l : List ProcInfo) :
    (qsort compare_cpu_usage l).Pairwise (fun a b => b.cpu_usage ≤ a.cpu_usage) := by
  have h := qsort_pairwise compare_cpu_usage
    (fun a b => by
      simp only [compare_cpu_usage_le_zero_iff]
      exact le_total b.cpu_usage a.cpu_usage)
    (fun a b e hab hbe => by
      simp only [compare_cpu_usage_le_zero_iff] at *
      exact le_trans hbe hab) l
  exact h.imp (fun hab => (compare_cpu_usage_le_zero_iff _ _).mp hab)

/-- For every array `out` that some `qsort` may return on `l` (a rearrangement of
`l` in ascending order of `compare_cpu_usage`), the first `n` elements are
non-increasing in `cpu_usage` and none of the others has a larger `cpu_usage`. -/
theorem rows_of_sorted (l out : List ProcInfo) (n : Nat) (_hperm : out.Perm l)
    (hsorted : out.Pairwise (fun a b => compare_cpu_usage a b ≤ 0)) :
    (out.take n).Pairwise (fun a b => b.cpu_usage ≤ a.cpu_usage) ∧
      ∀ a ∈ out.take n, ∀ b ∈ out.drop n, b.cpu_usage ≤ a.cpu_usage := by
  have hs : out.Pairwise (fun a b => b.cpu_usage ≤ a.cpu_usage) :=
    hsorted.imp (fun hab => (compare_cpu_usage_le_zero_iff _ _).mp hab)
  refine ⟨hs.sublist (List.take_sublist n out), ?_⟩
  intro a ha b hb
  have hsplit : (out.take n ++ out.drop n).Pairwise (fun a b => b.cpu_usage ≤ a.cpu_usage) := by
    rw [List.take_append_drop]; exact hs
  exact (List.pairwise_append.mp hsplit).2.2 a ha b hb

theorem get_top_processes_rows (es : List DirEntry) (d : Nat) (t : List ProcPrev) :
    (get_top_processes (some es) d t).rows =
      (qsort compare_cpu_usage (get_top_processes (some es) d t).scanned).take TOP_N := by
  simp only [get_top_processes]

theorem get_top_processes_scanned (es : List DirEntry) (d : Nat) (t : List ProcPrev) :
    (get_top_processes (some es) d t).scanned = (scan_loop d es t []).2 := by
  simp only [get_top_processes]

theorem get_top_processes_table (es : List DirEntry) (d : Nat) (t : List ProcPrev) :
    (get_top_processes (some es) d t).prev_procs = (scan_loop d es t []).1 := by
  simp only [get_top_processes]

/-! ## The delimiters of the name -/

theorem strrchr_eq_none (l : List Char) (c : Char) (h : c ∉ l) : strrchr l c = none := by
  induction l with
  | nil => rfl
  | cons x rest ih =>
    rw [List.mem_cons, not_or] at h
    have hx : ¬ x = c := fun e => h.1 e.symm
    simp only [strrchr, ih h.2, if_neg hx]

/-- The first occurrence: nothing equal to `c` stands before it. -/
theorem strchr_first (pre rest : List Char) (c : Char) (h : c ∉ pre) :
    strchr (pre ++ c :: rest) c = some pre.length := by
  induction pre with
  | nil => simp [strchr]
  | cons x xs ih =>
    rw [List.mem_cons, not_or] at h
    have hx : ¬ x = c := fun e => h.1 e.symm
    rw [List.cons_append]
    simp only [strchr, if_neg hx, ih h.2, Option.map_some', List.length_cons]

/-- The last occurrence: nothing equal to `c` stands after it. -/
theorem strrchr_last (pre post : List Char) (c : Char) (h : c ∉ post) :
    strrchr (pre ++ c :: post) c = some pre.length := by
  induction pre with
  | nil => simp [strrchr, strrchr_eq_none post c h]
  | cons x xs ih =>
    rw [List.cons_append]
    simp only [strrchr, ih, List.length_cons]

theorem name_text_between (pre mid post : List Char) :
    name_text (pre ++ '(' :: (mid ++ ')' :: post)) pre.length (pre.length + 1 + mid.length) = mid := by
  have hlt : pre.length < pre.length + 1 + mid.length := by omega
  unfold name_text
  simp only [hlt, if_true]
  have h1 : pre ++ '(' :: (mid ++ ')' :: post) = (pre ++ '(' :: mid) ++ ')' :: post := by simp
  have h2 : (pre ++ '(' :: mid).length = pre.length + 1 + mid.length := by
    simp only [List.length_append, List.length_cons]; omega
  rw [h1, ← h2, List.take_left']
  · have h3 : pre ++ '(' :: mid = (pre ++ ['(']) ++ mid := by simp
    have h4 : (pre ++ ['(']).length = pre.length + 1 := by simp
    rw [h3, ← h4, List.drop_left']
    rfl
  · rfl

theorem cycle_top (s : MainState) (i : CycleInput) :
    (cycle s i).top =
      if s.paused = true then none
      else some (get_top_processes i.proc (ulong_sub i.current_total_cpu s.prev_total_cpu)
        s.prev_procs) := by
  unfold cycle
  cases hp : s.paused <;> simp only [] <;> split_ifs <;> simp_all

theorem cycle_prev_procs (s : MainState) (i : CycleInput) :
    (cycle s i).state.prev_procs =
      if s.paused = true then s.prev_procs
      else (get_top_processes i.proc (ulong_sub i.current_total_cpu s.prev_total_cpu)
        s.prev_procs).prev_procs := by
  unfold cycle
  cases hp : s.paused <;> simp only [] <;> split_ifs <;> simp_all

theorem run_all_paused (ins : List CycleInput) :
    ∀ s : MainState, all_paused s ins = true → (run s ins).prev_procs = s.prev_procs := by
  induction ins with
  | nil => intro s _; rfl
  | cons i rest ih =>
    intro s h
    simp only [all_paused, Bool.and_eq_true, Bool.or_eq_true] at h
    have hc : (cycle s i).state.prev_procs = s.prev_procs := by
      rw [cycle_prev_procs, if_pos h.1]
    unfold run
    by_cases hq : (cycle s i).quit = true
    · rw [if_pos hq, hc]
    · rw [if_neg hq, ih _ (h.2.resolve_left hq), hc]

/-! ## Helper facts for the displayed rows -/

theorem qsort_length {α : Type} (c : α → α → Int) (l : List α) : (qsort c l).length = l.length :=
  (qsort_perm c l).length_eq

/-- When the system counter did not advance, every record of the tick has
`cpu_usage` 0. -/
theorem scanned_zero_without_advance (proc : Option (List DirEntry)) (t : List ProcPrev) :
    ∀ p ∈ (get_top_processes proc 0 t).scanned, p.cpu_usage = 0 := by
  have hloop : ∀ (es : List DirEntry) (t : List ProcPrev) (acc : List ProcInfo),
      ∀ p ∈ (scan_loop 0 es t acc).2, p ∈ acc ∨ p.cpu_usage = 0 := by
    intro es
    induction es with
    | nil => intro t acc p hp; exact Or.inl hp
    | cons e rest ih =>
      intro t acc p hp
      cases he : eligible e with
      | false =>
        rw [scan_loop_cons_skip 0 e rest t acc he] at hp
        exact ih t acc p hp
      | true =>
        have hown : p = sample 0 t e → p.cpu_usage = 0 := by
          intro hps
          subst hps
          simp only [sample]
          exact compute_cpu_usage_zero_diff t _ _
        rw [scan_loop_cons_store 0 e rest t acc he] at hp
        by_cases hfull : (acc ++ [sample 0 t e]).length ≥ MAX_PROCS
        · simp only [hfull, if_true, List.mem_append, List.mem_singleton] at hp
          exact hp.imp id hown
        · simp only [hfull, if_false] at hp
          rcases ih _ _ p hp with h | h
          · simp only [List.mem_append, List.mem_singleton] at h
            exact h.imp id hown
          · exact Or.inr h
  intro p hp
  cases proc with
  | none => simp [get_top_processes] at hp
  | some es =>
    rw [get_top_processes_scanned] at hp
    rcases hloop es t [] p hp with h | h
    · simp at h
    · exact h

theorem rows_length (proc : Option (List DirEntry)) (d : Nat) (t : List ProcPrev) :
    (get_top_processes proc d t).rows.length = min TOP_N (eligible_entries proc).length := by
  cases proc with
  | none => simp [get_top_processes, eligible_entries]
  | some es =>
    rw [get_top_processes_rows, List.length_take, qsort_length, get_top_processes_scanned,
      scan_loop_length d es t [] (by decide)]
    simp only [List.length_nil, Nat.zero_add, eligible_entries, TOP_N, MAX_PROCS]
    omega

/-! ## Well-formed records -/

theorem isdigit_ne (c : Char) (h : isdigit c = true) :
    c ≠ ')' ∧ c ≠ '-' ∧ c ≠ '+' ∧ isspace c = false := by
  refine ⟨?_, ?_, ?_, ?_⟩
  · rintro rfl; revert h; decide
  · rintro rfl; revert h; decide
  · rintro rfl; revert h; decide
  · simp only [isdigit, Bool.and_eq_true, decide_eq_true_eq] at h
    simp only [isspace, Bool.or_eq_false_iff, decide_eq_false_iff_not]
    have h1 : (48 : Nat) ≤ c.toNat := h.1
    have h2 : c.toNat ≤ 57 := h.2
    refine ⟨⟨⟨⟨⟨?_, ?_⟩, ?_⟩, ?_⟩, ?_⟩, ?_⟩ <;> (rintro rfl; revert h1 h2; decide)

theorem is_digits_iff (ds : List Char) :
    is_digits ds = true ↔ ds ≠ [] ∧ ∀ c ∈ ds, isdigit c = true := by
  cases ds <;> simp [is_digits]

theorem is_number_cases (tok : List Char) (h : is_number tok = true) :
    is_digits tok = true ∨ ∃ ds, is_digits ds = true ∧ tok = '-' :: ds := by
  unfold is_number at h
  split at h
  · exact Or.inr ⟨_, h, rfl⟩
  · exact Or.inl h

theorem takeWhile_digits (ds rest : List Char) (hd : ∀ c ∈ ds, isdigit c = true)
    (hr : no_digit_ahead rest = true) :
    (ds ++ rest).takeWhile isdigit = ds ∧ (ds ++ rest).dropWhile isdigit = rest := by
  induction ds with
  | nil =>
    cases rest with
    | nil => simp
    | cons c cs =>
      have : isdigit c = false := by simpa [no_digit_ahead] using hr
      simp [List.takeWhile, List.dropWhile, this]
  | cons d ds ih =>
    have hd1 : isdigit d = true := hd d (List.mem_cons_self _ _)
    have := ih (fun c hc => hd c (List.mem_cons_of_mem _ hc))
    simp [List.takeWhile, List.dropWhile, hd1, this.1, this.2]

theorem scan_number_of_dropWhile (s : List Char) (c : Char) (t : List Char)
    (h : s.dropWhile isspace = c :: t) :
    scan_number s =
      if (if c = '-' ∨ c = '+' then t else c :: t).takeWhile isdigit = [] then Conv.match_failure
      else Conv.ok (digits_value ((if c = '-' ∨ c = '+' then t else c :: t).takeWhile isdigit))
        (decide (c = '-')) ((if c = '-' ∨ c = '+' then t else c :: t).dropWhile isdigit) := by
  unfold scan_number
  rw [h]

theorem scan_number_digits (ds rest : List Char) (h : is_digits ds = true)
    (hr : no_digit_ahead rest = true) :
    scan_number (' ' :: (ds ++ rest)) = Conv.ok (digits_value ds) false rest := by
  obtain ⟨hne, hd⟩ := (is_digits_iff ds).mp h
  cases ds with
  | nil => exact absurd rfl hne
  | cons d ds =>
    have hd1 : isdigit d = true := hd d (List.mem_cons_self _ _)
    obtain ⟨_, hm, hp, hs⟩ := isdigit_ne d hd1
    have htw := takeWhile_digits (d :: ds) rest hd hr
    have hdw : (' ' :: (d :: ds ++ rest)).dropWhile isspace = d :: (ds ++ rest) := by
      have hsp : isspace ' ' = true := by decide
      rw [List.dropWhile_cons_of_pos hsp, List.cons_append, List.dropWhile_cons_of_neg (by simp [hs])]
    have hsign : ¬ (d = '-' ∨ d = '+') := by simp [hm, hp]
    rw [scan_number_of_dropWhile _ _ _ hdw]
    simp only [hsign, if_false]
    rw [← List.cons_append, htw.1, htw.2]
    simp [hm]

theorem scan_number_minus (ds rest : List Char) (h : is_digits ds = true)
    (hr : no_digit_ahead rest = true) :
    scan_number (' ' :: '-' :: (ds ++ rest)) = Conv.ok (digits_value ds) true rest := by
  obtain ⟨hne, hd⟩ := (is_digits_iff ds).mp h
  have htw := takeWhile_digits ds rest hd hr
  have hdw : (' ' :: '-' :: (ds ++ rest)).dropWhile isspace = '-' :: (ds ++ rest) := by
    have hsp : isspace ' ' = true := by decide
    have hsm : ¬ isspace '-' = true := by decide
    rw [List.dropWhile_cons_of_pos hsp, List.dropWhile_cons_of_neg hsm]
  rw [scan_number_of_dropWhile _ _ _ hdw]
  simp only [true_or, if_true, htw.1, htw.2, hne, if_false, decide_True]

theorem no_digit_ahead_fields (toks : List (List Char)) (rest : List Char)
    (hr : no_digit_ahead rest = true) : no_digit_ahead (fields_text toks ++ rest) = true := by
  cases toks with
  | nil => simpa [fields_text] using hr
  | cons tok toks =>
    simp only [fields_text, List.foldr_cons, List.cons_append, no_digit_ahead]
    decide

/-- The suppressed conversions consume one number each. -/
theorem skip_numbers_fields (toks : List (List Char)) (rest : List Char)
    (htok : ∀ tok ∈ toks, is_number tok = true) (hr : no_digit_ahead rest = true) :
    skip_numbers toks.length (fields_text toks ++ rest) = Except.ok rest := by
  induction toks with
  | nil => simp [skip_numbers, fields_text]
  | cons tok toks ih =>
    have hrest := no_digit_ahead_fields toks rest hr
    have hstep : ∃ v n, scan_number (fields_text (tok :: toks) ++ rest) =
        Conv.ok v n (fields_text toks ++ rest) := by
      have hshape : fields_text (tok :: toks) ++ rest =
          ' ' :: (tok ++ (fields_text toks ++ rest)) := by
        simp [fields_text]
      rw [hshape]
      rcases is_number_cases tok (htok tok (List.mem_cons_self _ _)) with h | ⟨ds, h, rfl⟩
      · exact ⟨_, _, scan_number_digits tok _ h hrest⟩
      · exact ⟨_, _, scan_number_minus ds _ h hrest⟩
    obtain ⟨v, n, hv⟩ := hstep
    simp only [List.length_cons, skip_numbers, hv]
    exact ih (fun tok h => htok tok (List.mem_cons_of_mem _ h))

/-- On a state character followed by nine numbers and two unsigned numbers,
`sscanf` assigns the two unsigned numbers and returns 2. -/
theorem sscanf_stat_fields (st : Char) (toks : List (List Char)) (ds1 ds2 tail : List Char)
    (hlen : toks.length = 9) (htok : ∀ tok ∈ toks, is_number tok = true)
    (h1 : is_digits ds1 = true) (h2 : is_digits ds2 = true) (ht : no_digit_ahead tail = true) :
    sscanf_stat (st :: (fields_text toks ++ ' ' :: (ds1 ++ ' ' :: (ds2 ++ tail)))) =
      (2, strtoul_value (digits_value ds1) false, strtoul_value (digits_value ds2) false) := by
  have hskip := skip_numbers_fields toks (' ' :: (ds1 ++ ' ' :: (ds2 ++ tail))) htok
    (by simp only [no_digit_ahead]; decide)
  rw [hlen] at hskip
  have hn1 : no_digit_ahead (' ' :: (ds2 ++ tail)) = true := by
    simp only [no_digit_ahead]; decide
  simp only [sscanf_stat, hskip, scan_number_digits ds1 (' ' :: (ds2 ++ tail)) h1 hn1,
    scan_number_digits ds2 tail h2 ht]

theorem not_mem_digits (ds : List Char) (h : is_digits ds = true) : ')' ∉ ds := by
  intro hm
  exact (isdigit_ne _ (((is_digits_iff ds).mp h).2 _ hm)).1 rfl

theorem not_mem_fields (toks : List (List Char)) (htok : ∀ tok ∈ toks, is_number tok = true) :
    ')' ∉ fields_text toks := by
  induction toks with
  | nil => simp [fields_text]
  | cons tok toks ih =>
    have hrest := ih (fun tok h => htok tok (List.mem_cons_of_mem _ h))
    have htk : ')' ∉ tok := by
      rcases is_number_cases tok (htok tok (List.mem_cons_self _ _)) with h | ⟨ds, h, rfl⟩
      · exact not_mem_digits tok h
      · intro hm
        rcases List.mem_cons.mp hm with h1 | h1
        · revert h1; decide
        · exact not_mem_digits ds h h1
    have hshape : fields_text (tok :: toks) = ' ' :: (tok ++ fields_text toks) := rfl
    rw [hshape]
    intro hm
    rcases List.mem_cons.mp hm with h1 | h1
    · revert h1; decide
    · rcases List.mem_append.mp h1 with h2 | h2
      · exact htk h2
      · exact hrest h2

/-- On a well-formed record `get_proc_info` succeeds, stores the name, and
stores field 13 in `utime` and field 14 in `stime`. -/
theorem get_proc_info_stat_record (pre name : List Char) (st : Char) (toks : List (List Char))
    (f13 f14 tail slack : List Char) (pid : Int) (pinfo : ProcInfo)
    (hpre : '(' ∉ pre) (hst : st ≠ ')') (hlen : toks.length = 9)
    (htok : ∀ tok ∈ toks, is_number tok = true)
    (h13 : is_digits f13 = true) (h14 : is_digits f14 = true)
    (hv13 : digits_value f13 ≤ ULONG_MAX) (hv14 : digits_value f14 ≤ ULONG_MAX)
    (ht : no_digit_ahead tail = true) (htail : ')' ∉ tail) :
    get_proc_info (some { line := stat_record pre name st toks f13 f14 tail, slack := slack })
        pid pinfo =
      (1, { pid := pid, name := name, utime := digits_value f13, stime := digits_value f14,
            total_time := (digits_value f13 + digits_value f14) % ULONG_SIZE,
            cpu_usage := pinfo.cpu_usage }) := by
  have hpost : ')' ∉ ' ' :: st ::
      (fields_text toks ++ ' ' :: (f13 ++ ' ' :: (f14 ++ tail))) := by
    intro hm
    have hsp : ¬ ')' = ' ' := by decide
    simp only [List.mem_cons, List.mem_append, hsp, false_or] at hm
    rcases hm with h | h | h | h | h
    · exact hst h.symm
    · exact not_mem_fields toks htok h
    · exact not_mem_digits f13 h13 h
    · exact not_mem_digits f14 h14 h
    · exact htail h
  have hs : strchr (stat_record pre name st toks f13 f14 tail) '(' = some pre.length :=
    strchr_first pre _ '(' hpre
  have he : strrchr (stat_record pre name st toks f13 f14 tail) ')' =
      some (pre.length + 1 + name.length) := by
    have h := strrchr_last (pre ++ '(' :: name) _ ')' hpost
    simp only [List.append_assoc, List.cons_append, List.length_append, List.length_cons] at h
    unfold stat_record
    rw [h]
    congr 1
    omega
  have hafter : after_text
      { line := stat_record pre name st toks f13 f14 tail, slack := slack }
      (pre.length + 1 + name.length) =
      st :: (fields_text toks ++ ' ' :: (f13 ++ ' ' :: (f14 ++ tail))) := by
    have hline : stat_record pre name st toks f13 f14 tail =
        (pre ++ '(' :: name ++ [')', ' ']) ++
          st :: (fields_text toks ++ ' ' :: (f13 ++ ' ' :: (f14 ++ tail))) := by
      simp [stat_record]
    have hl : (pre ++ '(' :: name ++ [')', ' ']).length = pre.length + 1 + name.length + 2 := by
      simp only [List.length_append, List.length_cons, List.length_nil]; omega
    unfold after_text
    simp only []
    rw [hline, if_pos (by rw [List.length_append, hl, List.length_cons]; omega), ← hl,
      List.drop_left']
    rfl
  rw [get_proc_info_found _ pid pinfo _ _ hs he, hafter,
    sscanf_stat_fields st toks f13 f14 tail hlen htok h13 h14 ht]
  have hn : name_text (stat_record pre name st toks f13 f14 tail) pre.length
      (pre.length + 1 + name.length) = name := name_text_between pre name _
  have hu13 : strtoul_value (digits_value f13) false = digits_value f13 := by
    simp [strtoul_value, not_lt.mpr hv13]
  have hu14 : strtoul_value (digits_value f14) false = digits_value f14 := by
    simp [strtoul_value, not_lt.mpr hv14]
  simp [hn, hu13, hu14]

/-! ## Properties of the specification, checked on the code -/

/-- C2. On every well-formed record (pid, name in parentheses, state, the
numbers of fields 4 to 12, then the unsigned numbers `f13`, `f14`, `f15` of
fields 13, 14, 15, then the rest of the line) `get_proc_info` succeeds and
stores the name; but `utime` receives field 13 and `stime` field 14, so that
`total_time` is the sum of the fields 13 and 14, not of the fields 14 and 15. -/
theorem get_proc_info_sums_fields_13_14 (pre name : List Char) (st : Char)
    (toks : List (List Char)) (f13 f14 f15 tail slack : List Char) (pid : Int) (pinfo : ProcInfo)
    (hpre : '(' ∉ pre) (hst : st ≠ ')') (hlen : toks.length = 9)
    (htok : ∀ tok ∈ toks, is_number tok = true)
    (h13 : is_digits f13 = true) (h14 : is_digits f14 = true) (h15 : is_digits f15 = true)
    (hv13 : digits_value f13 ≤ ULONG_MAX) (hv14 : digits_value f14 ≤ ULONG_MAX)
    (htail : ')' ∉ tail) :
    get_proc_info
        (some { line := stat_record pre name st toks f13 f14 (' ' :: (f15 ++ tail)),
                slack := slack }) pid pinfo =
      (1, { pid := pid, name := name, utime := digits_value f13, stime := digits_value f14,
            total_time := (digits_value f13 + digits_value f14) % ULONG_SIZE,
            cpu_usage := pinfo.cpu_usage }) := by
  refine get_proc_info_stat_record pre name st toks f13 f14 _ slack pid pinfo hpre hst hlen htok
    h13 h14 hv13 hv14 (by simp only [no_digit_ahead]; decide) ?_
  intro hm
  rcases List.mem_cons.mp hm with h | h
  · revert h; decide
  · rcases List.mem_append.mp h with h | h
    · exact not_mem_digits f15 h15 h
    · exact htail h

/-- C2, on the record of pid 42 whose field 13 is 3, field 14 (`utime`) is 200
and field 15 (`stime`) is 11: `total_time` is 203, not 211. -/
theorem get_proc_info_sums_fields_13_14_witness :
    stat_record "42 ".toList "cat".toList 'S'
        (["1", "42", "42", "0", "-1", "4194304", "100", "0", "7"].map String.toList)
        "3".toList "200".toList (' ' :: ("11".toList ++ " 0 0 20 0 1 0 100 0 0\n".toList)) =
      stat_42.toList ∧
    get_proc_info (some (read_line stat_42)) 42 ProcInfo.uninit =
      (1, { pid := 42, name := "cat".toList, utime := 3, stime := 200, total_time := 203,
            cpu_usage := 0 }) ∧
    (203 : Nat) ≠ 200 + 11 := by
  have h := get_proc_info_sums_fields_13_14 "42 ".toList "cat".toList 'S'
    (["1", "42", "42", "0", "-1", "4194304", "100", "0", "7"].map String.toList)
    "3".toList "200".toList "11".toList " 0 0 20 0 1 0 100 0 0\n".toList [] 42 ProcInfo.uninit
    (by decide) (by decide) (by decide) (by decide) (by decide) (by decide) (by decide)
    (by decide) (by decide) (by decide)
  refine ⟨by decide, ?_, by decide⟩
  have hr : read_line stat_42 = StatRead.mk (stat_record "42 ".toList "cat".toList 'S'
      (["1", "42", "42", "0", "-1", "4194304", "100", "0", "7"].map String.toList)
      "3".toList "200".toList (' ' :: ("11".toList ++ " 0 0 20 0 1 0 100 0 0\n".toList))) [] := by
    decide
  rw [hr, h]
  decide

/-- C5 fails: the table holds `MAX_PROCS` distinct pids, none of them 5000; after
`update_prev_total_time(5000, 7)` the table is as before and the lookup of 5000
returns 0. -/
theorem update_dropped_when_full :
    full_table.length = MAX_PROCS ∧ (full_table.map ProcPrev.pid).Nodup ∧
    update_prev_total_time full_table 5000 7 = full_table ∧
    find_prev_total_time (update_prev_total_time full_table 5000 7) 5000 = 0 ∧
    (0 : Nat) ≠ 7 := by
  have hlen : full_table.length = MAX_PROCS := by
    simp only [full_table, List.length_map, List.length_range]
  have hno : has_entry full_table 5000 = false := by
    rw [has_entry_eq_false_iff]
    intro p hp
    simp only [full_table, List.mem_map, List.mem_range] at hp
    obtain ⟨i, hi, rfl⟩ := hp
    have hi2 : i < 1024 := hi
    simp only [ne_eq]
    omega
  have hfull : ¬ full_table.length < MAX_PROCS := by rw [hlen]; exact lt_irrefl _
  refine ⟨hlen, ?_, update_full_table _ _ _ hno hfull, ?_, by decide⟩
  · have hmap : full_table.map ProcPrev.pid =
        (List.range MAX_PROCS).map (fun (i : Nat) => (i : Int) + 1) := by
      simp only [full_table, List.map_map, Function.comp_def]
    rw [hmap]
    refine (List.nodup_range _).map ?_
    intro a b hab
    simp only at hab
    omega
  · rw [update_full_table _ _ _ hno hfull]
    exact find_prev_of_no_entry _ _ hno

/-- C5 (amended). After `update_prev_total_time(pid, v)` the lookup of `pid`
returns `v` when the table already had an entry for `pid` or held fewer than
`MAX_PROCS` entries; when it was full and had none, the lookup returns 0. -/
theorem baseline_after_update (prev_procs : List ProcPrev) (pid : Int) (v : Nat) :
    find_prev_total_time (update_prev_total_time prev_procs pid v) pid =
      if has_entry prev_procs pid = true ∨ prev_procs.length < MAX_PROCS then v else 0 :=
  find_prev_update_same prev_procs pid v

/-- C6. For a pid without an entry in the table, `find_prev_total_time` returns 0
and the delta computed for it is its counter `total_time`. -/
theorem first_seen_delta (prev_procs : List ProcPrev) (pid : Int) (total_time : Nat)
    (h : ∀ p ∈ prev_procs, p.pid ≠ pid) :
    find_prev_total_time prev_procs pid = 0 ∧
      compute_diff_time prev_procs pid total_time = total_time := by
  have h0 : find_prev_total_time prev_procs pid = 0 :=
    find_prev_of_no_entry _ _ ((has_entry_eq_false_iff _ _).mpr h)
  refine ⟨h0, ?_⟩
  unfold compute_diff_time
  rw [h0]
  by_cases hz : total_time > 0
  · simp [hz]
  · simp only [hz, if_false]; omega

/-- C6, the scenario of the specification: pid 7 is not in the table, its
counter is 340, its delta is 340. -/
theorem first_seen_delta_witness :
    (∀ p ∈ state_950.prev_procs, p.pid ≠ 7) ∧
    find_prev_total_time state_950.prev_procs 7 = 0 ∧
    compute_diff_time state_950.prev_procs 7 340 = 340 :=
  ⟨by decide, first_seen_delta state_950.prev_procs 7 340 (by decide)⟩

/-- C7. The rows displayed are the first `TOP_N` elements of the scanned array
after `qsort` with `compare_cpu_usage`; that array is a rearrangement of the
scanned one, the rows are non-increasing in `cpu_usage`, and no element left
undisplayed has a larger `cpu_usage` than a displayed one. -/
theorem displayed_rows_sorted (proc : Option (List DirEntry)) (d : Nat) (t : List ProcPrev) :
    (qsort compare_cpu_usage (get_top_processes proc d t).scanned).Perm
      (get_top_processes proc d t).scanned ∧
    (get_top_processes proc d t).rows =
      (qsort compare_cpu_usage (get_top_processes proc d t).scanned).take TOP_N ∧
    (get_top_processes proc d t).rows.Pairwise (fun a b => b.cpu_usage ≤ a.cpu_usage) ∧
    (∀ a ∈ (get_top_processes proc d t).rows,
      ∀ b ∈ (qsort compare_cpu_usage (get_top_processes proc d t).scanned).drop TOP_N,
        b.cpu_usage ≤ a.cpu_usage) := by
  have hrows : (get_top_processes proc d t).rows =
      (qsort compare_cpu_usage (get_top_processes proc d t).scanned).take TOP_N := by
    cases proc with
    | none => simp [get_top_processes, qsort]
    | some es => exact get_top_processes_rows es d t
  have hperm := qsort_perm compare_cpu_usage (get_top_processes proc d t).scanned
  have hsorted : (qsort compare_cpu_usage (get_top_processes proc d t).scanned).Pairwise
      (fun a b => compare_cpu_usage a b ≤ 0) :=
    (qsort_cpu_usage_sorted _).imp (fun hab => (compare_cpu_usage_le_zero_iff _ _).mpr hab)
  have h := rows_of_sorted _ _ TOP_N hperm hsorted
  refine ⟨hperm, hrows, ?_, ?_⟩
  · rw [hrows]; exact h.1
  · rw [hrows]; exact h.2

/-- C7, on six processes with percentages 10, 60, 30, 50, 20, 40: the row of
pid 2 (60) is displayed, the record of pid 1 (10) is the one left out. -/
theorem displayed_rows_sorted_witness :
    (get_top_processes (some six_entries) 100 []).rows.map (fun p => (p.pid, p.cpu_usage)) =
      [(2, 60), (4, 50), (6, 40), (3, 30), (5, 20)] ∧
    ({ pid := 2, name := "b".toList, utime := 0, stime := 60, total_time := 60,
       cpu_usage := 60 } : ProcInfo) ∈ (get_top_processes (some six_entries) 100 []).rows ∧
    ({ pid := 1, name := "a".toList, utime := 0, stime := 10, total_time := 10,
       cpu_usage := 10 } : ProcInfo) ∈
      (qsort compare_cpu_usage (get_top_processes (some six_entries) 100 []).scanned).drop TOP_N ∧
    ((10 : ℚ) ≤ 60) :=
  ⟨by decide!, by decide!, by decide!,
    (displayed_rows_sorted (some six_entries) 100 []).2.2.2
      { pid := 2, name := "b".toList, utime := 0, stime := 60, total_time := 60, cpu_usage := 60 }
      (by decide!)
      { pid := 1, name := "a".toList, utime := 0, stime := 10, total_time := 10, cpu_usage := 10 }
      (by decide!)⟩

/-- C8. The number of rows displayed is `min(TOP_N, n)`, where `n` is the number
of entries of the listing that name a pid and for which `get_proc_info`
succeeds; `TOP_N` is 5. -/
theorem displayed_rows_count (proc : Option (List DirEntry)) (d : Nat) (t : List ProcPrev) :
    (get_top_processes proc d t).rows.length = min TOP_N (eligible_entries proc).length ∧
      TOP_N = 5 :=
  ⟨rows_length proc d t, rfl⟩

/-- C10. A cycle that starts with `paused` set does not call
`get_top_processes` and leaves the baseline table as it was; so does every run
of such cycles, and the first cycle after it that starts with `paused` clear
calls `get_top_processes` on the table recorded before the pause. -/
theorem paused_cycles_keep_baseline (s : MainState) :
    (∀ i : CycleInput, s.paused = true →
      (cycle s i).top = none ∧ (cycle s i).state.prev_procs = s.prev_procs) ∧
    (∀ (ins : List CycleInput) (i : CycleInput), all_paused s ins = true →
      (run s ins).prev_procs = s.prev_procs ∧
      ((run s ins).paused = false →
        (cycle (run s ins) i).top =
          some (get_top_processes i.proc
            (ulong_sub i.current_total_cpu (run s ins).prev_total_cpu) s.prev_procs))) := by
  refine ⟨fun i hp => ⟨by rw [cycle_top, if_pos hp], by rw [cycle_prev_procs, if_pos hp]⟩, ?_⟩
  intro ins i hall
  have hrun := run_all_paused ins s hall
  refine ⟨hrun, fun hp => ?_⟩
  rw [cycle_top, hrun]
  simp [hp]

/-- C10, on a paused monitor with baseline 200 for pid 42: two cycles pass, the
second one receives `p`; the table is the same, and the next cycle computes the
delta of pid 42 (counter 211) against 200. -/
theorem paused_cycles_keep_baseline_witness :
    state_paused.paused = true ∧
    all_paused state_paused [tick_input 1005 ERR, tick_input 1060 (key 'p')] = true ∧
    (run state_paused [tick_input 1005 ERR, tick_input 1060 (key 'p')]).paused = false ∧
    (run state_paused [tick_input 1005 ERR, tick_input 1060 (key 'p')]).prev_procs =
      state_paused.prev_procs ∧
    (cycle (run state_paused [tick_input 1005 ERR, tick_input 1060 (key 'p')])
        (tick_input 1115 ERR)).top =
      some (get_top_processes (some [entry_42]) 55 [{ pid := 42, total_time := 200 }]) :=
  ⟨by decide, by decide, by decide,
    ((paused_cycles_keep_baseline state_paused).2
      [tick_input 1005 ERR, tick_input 1060 (key 'p')] (tick_input 1115 ERR) (by decide)).1,
    ((paused_cycles_keep_baseline state_paused).2
      [tick_input 1005 ERR, tick_input 1060 (key 'p')] (tick_input 1115 ERR) (by decide)).2
      (by decide)⟩

end SmartHtop
